import Mathlib

/-!
Verification development for the driving-exam statistics importer and store
(`src/driving_exams/services/csv_importer.py` and
`src/driving_exams/services/database.py`).

The embedding starts at the decoded-CSV boundary: a file is a
`List (List String)` (the output of Python's `csv.reader` after encoding and
dialect detection, which are IO-level and not modelled).  Machine integers are
`Int` (Python integers are unbounded, so no wrap-around is modelled).  Python
`set` values are modelled as first-occurrence-deduplicated lists; every use in
the source is order-insensitive (membership tests and `INSERT OR IGNORE`).
String operations (`strip`, `lower`, `int(...)`) are modelled over the ASCII
fragment that the data and the recognized header aliases use.
-/

namespace DrivingExams

/-- ASCII lowercase mapping, the fragment of Python `str.lower` (and of the
case-insensitivity of SQLite `LIKE`) relevant to ASCII data. -/
def lowerChar (c : Char) : Char :=
  if 'A' ≤ c ∧ c ≤ 'Z' then Char.ofNat (c.toNat + 32) else c

/-- Lowercase a character list pointwise. -/
def lowerL (s : List Char) : List Char := s.map lowerChar

/-- ASCII whitespace, the fragment of Python `str.strip`'s default set. -/
def isSpaceChar (c : Char) : Bool :=
  c = ' ' ∨ c = '\t' ∨ c = '\n' ∨ c = '\r' ∨ c = '\x0b' ∨ c = '\x0c'

/-- Python `str.strip()`: drop whitespace from both ends. -/
def trimL (s : List Char) : List Char :=
  ((s.dropWhile isSpaceChar).reverse.dropWhile isSpaceChar).reverse

/-- Does `hay` start with `needle`? (helper for substring containment). -/
def leadsWith (needle hay : List Char) : Bool :=
  match needle, hay with
  | [], _ => true
  | _ :: _, [] => false
  | c :: cs, d :: ds => c = d && leadsWith cs ds

/-- Python's `needle in hay` substring containment on strings. -/
def containsSub (hay needle : List Char) : Bool :=
  match hay with
  | [] => needle.isEmpty
  | _ :: t => leadsWith needle hay || containsSub t needle

/-- Digit-sequence parser for Python `int(...)`: one or more ASCII digits with
single internal underscores allowed (as in `int("1_234")`).  `acc` is the value
of the digits consumed so far. -/
def pyDigits : Nat → List Char → Option Nat
  | acc, [] => some acc
  | acc, c :: rest =>
    if c = '_' then
      match rest with
      | [] => none
      | d :: rest2 =>
        if d.isDigit then pyDigits (10 * acc + (d.toNat - '0'.toNat)) rest2
        else none
    else if c.isDigit then pyDigits (10 * acc + (c.toNat - '0'.toNat)) rest
    else none

/-- Unsigned part of Python `int(...)`: requires at least one leading digit. -/
def pyDigitsStart : List Char → Option Nat
  | [] => none
  | c :: rest => if c.isDigit then pyDigits (c.toNat - '0'.toNat) rest else none

/-- Python `int(s)` on an already-stripped string: optional sign, then a
non-empty digit sequence; `none` models a raised `ValueError`. -/
def pyInt (l : List Char) : Option Int :=
  match l with
  | [] => none
  | c :: rest =>
    if c = '+' then (pyDigitsStart rest).map Int.ofNat
    else if c = '-' then (pyDigitsStart rest).map (fun n => -(n : Int))
    else (pyDigitsStart (c :: rest)).map Int.ofNat

/-- Remove every `.` and `,`, as `value.replace(".", "").replace(",", "")`. -/
def removeSeps (s : List Char) : List Char :=
  s.filter (fun c => ¬ (c = '.' ∨ c = ','))

/-- Embedding of `_to_int` (csv_importer.py lines 11-15):
`int(str(value).replace(".", "").replace(",", "").strip())`, with any
exception swallowed into `0`. -/
def to_int (s : String) : Int :=
  (pyInt (trimL (removeSeps s.data))).getD 0

/-- Python `value.strip().lower()` — `_normalize_header` (csv_importer.py 35-36). -/
def normalizeHeader (s : String) : String := String.mk (lowerL (trimL s.data))

/-- One parsed record, the 15-tuple appended to `parsed` in `parse_rows`
(csv_importer.py 81-99), in the same field order. -/
structure ExamRow where
  province : String
  exam_center : String
  school_code : String
  school_name : String
  section_code : String
  month : Int
  year : Int
  exam_type : String
  permit : String
  passed : Int
  passed_1conv : Int
  passed_2conv : Int
  passed_3or4conv : Int
  passed_5plus : Int
  failed : Int
deriving DecidableEq, Repr

/-- The (year, month) period key of a record. -/
def periodOf (r : ExamRow) : Int × Int := (r.year, r.month)

/-- Index of the LAST occurrence of `key` in `header`, starting the count at
`i`: Python's `{name: idx for idx, name in enumerate(header)}` keeps the last
index when a name repeats. -/
def lastIdxFrom : List String → String → Nat → Option Nat
  | [], _, _ => none
  | h :: t, key, i =>
    match lastIdxFrom t key (i + 1) with
    | some j => some j
    | none => if h = key then some i else none

/-- The `index` dictionary lookup of `parse_rows` (csv_importer.py 46). -/
def lastIdx (header : List String) (key : String) : Option Nat :=
  lastIdxFrom header key 0

/-- The inner `get(row, *keys)` of `parse_rows` (csv_importer.py 48-52): first
key that is in the index with its column inside the row wins; its cell is
stripped; otherwise the empty string. -/
def getF (header : List String) (r : List String) : List String → String
  | [] => ""
  | k :: ks =>
    match lastIdx header k with
    | some i =>
      if h : i < r.length then String.mk (trimL (r.get ⟨i, h⟩).data)
      else getF header r ks
    | none => getF header r ks

/-- Body of the per-line loop of `parse_rows` (csv_importer.py 58-100):
`none` models `continue` (line too short, or the mandatory-field check at
lines 78-79 fails). -/
def parseRow (header : List String) (r : List String) : Option ExamRow :=
  if r.isEmpty ∨ r.length < 5 then none
  else
    let province := getF header r ["desc_provincia", "provincia"]
    let exam_center := getF header r ["centro_examen", "centro"]
    let school_code := getF header r ["codigo_autoescuela", "cod_autoescuela"]
    let school_name := getF header r ["nombre_autoescuela", "autoescuela"]
    let section_code := getF header r ["codigo_seccion", "seccion"]
    let month := to_int (getF header r ["mes"])
    let year := to_int (getF header r ["anyo", "anio", "year"])
    let exam_type := getF header r ["tipo_examen"]
    let permit := getF header r ["nombre_permiso", "permiso"]
    let passed := to_int (getF header r ["num_aptos", "aptos"])
    let passed_1 := to_int (getF header r ["num_aptos_1conv"])
    let passed_2 := to_int (getF header r ["num_aptos_2conv"])
    let passed_3 := to_int (getF header r ["num_aptos_3o4conv"])
    let passed_5 := to_int (getF header r ["num_aptos_5_o_mas_conv"])
    let failed := to_int (getF header r ["num_no_aptos", "no_aptos"])
    if province = "" ∨ exam_center = "" ∨ year = 0 ∨ month = 0 then none
    else
      some ⟨province, exam_center, school_code, school_name, section_code,
        month, year, exam_type, permit, passed, passed_1, passed_2, passed_3,
        passed_5, failed⟩

/-- First-occurrence deduplication; models a Python `set` built by successive
`add` calls (iteration order of the original set is unspecified, and every
consumer in the source is order-insensitive). -/
def dedupFirst (ps : List (Int × Int)) : List (Int × Int) :=
  ps.foldl (fun acc p => if p ∈ acc then acc else acc ++ [p]) []

/-- Exceptions escaping the import path. -/
inductive PyError where
  /-- `IndexError` from `header[0]` when the first line has no cells. -/
  | indexError
  /-- `ValueError("No data rows found in the file")` (csv_importer.py 106). -/
  | noData
  /-- `ValueError("All periods in this file were already imported")`
  (csv_importer.py 124). -/
  | nothingToImport
deriving DecidableEq, Repr

/-- Embedding of `parse_rows` (csv_importer.py 38-102) from the decoded-CSV
boundary: the header/data split at line 43, the index from the (normalized)
first line, the per-line loop, and the set of periods of surviving records. -/
def parse_rows (rows : List (List String)) :
    Except PyError (List ExamRow × List (Int × Int)) :=
  match rows with
  | [] => .ok ([], [])
  | first :: rest =>
    if first.isEmpty then .error .indexError
    else
      let header := first.map normalizeHeader
      let h0 := header.headD ""
      let dataRows :=
        if containsSub h0.data "provincia".data ||
            containsSub h0.data "desc_provincia".data
        then rest else first :: rest
      let parsed := dataRows.filterMap (parseRow header)
      .ok (parsed, dedupFirst (parsed.map periodOf))

/-- Store state: the `driving_exams` table (append-only list of records) and
the `imported_periods` ledger (set of (year, month), modelled as a list with
unique membership maintained by `markPeriods`). -/
structure DB where
  rows : List ExamRow
  ledger : List (Int × Int)
deriving DecidableEq, Repr

/-- Embedding of `Database.is_period_imported` (database.py 77-84). -/
def is_period_imported (db : DB) (y m : Int) : Bool :=
  decide ((y, m) ∈ db.ledger)

/-- Embedding of the `INSERT OR IGNORE` of `Database.mark_periods_imported`
(database.py 86-93): each period is appended unless already present. -/
def markPeriods (ledger ps : List (Int × Int)) : List (Int × Int) :=
  ps.foldl (fun L p => if p ∈ L then L else L ++ [p]) ledger

/-- Embedding of `import_csv` (csv_importer.py 104-128) that additionally
records the intermediate durable state: on success it returns
`(count, state committed by insert_rows, state committed by
mark_periods_imported)`.  The two commits happen on two separate sqlite
connections (database.py 104-108 and 87-93), so the middle state is durable. -/
def import_csv_run (csv : List (List String)) (db : DB) :
    Except PyError (Nat × DB × DB) :=
  match parse_rows csv with
  | .error e => .error e
  | .ok (rows, _periods) =>
    if rows.isEmpty then .error .noData
    else
      let toIns := rows.filter (fun r => !(is_period_imported db r.year r.month))
      if toIns.isEmpty then .error .nothingToImport
      else
        let importedPeriods := dedupFirst (toIns.map periodOf)
        let db1 : DB := ⟨db.rows ++ toIns, db.ledger⟩
        let db2 : DB := ⟨db1.rows, markPeriods db1.ledger importedPeriods⟩
        .ok (toIns.length, db1, db2)

/-- Embedding of `import_csv` (csv_importer.py 104-128): the caller-visible
result, i.e. the count returned at line 128 and the final store state. -/
def import_csv (csv : List (List String)) (db : DB) :
    Except PyError (Nat × DB) :=
  (import_csv_run csv db).map (fun x => (x.1, x.2.2))

/-- SQLite `LIKE` pattern matching with the default ASCII case folding:
`%` matches any (possibly empty) run, `_` matches exactly one character,
any other pattern character matches case-insensitively. -/
def likeMatch : List Char → List Char → Bool
  | [], s => s.isEmpty
  | c :: p, s =>
    if c = '%' then s.tails.any (fun t => likeMatch p t)
    else
      match s with
      | [] => false
      | d :: t =>
        if c = '_' then likeMatch p t
        else lowerChar c = lowerChar d && likeMatch p t

/-- The pattern `f"%{v}%"` built by `_build_filters` (database.py 173 etc.). -/
def likePat (v : String) : List Char := '%' :: (v.data ++ ['%'])

/-- One optional text condition of `_build_filters` (database.py 171-185):
`filters.get(key)` is truthy iff the value is present and non-empty, and then
the column must satisfy `LIKE '%value%'`. -/
def textCond (v : Option String) (field : String) : Bool :=
  match v with
  | none => true
  | some s => if s = "" then true else likeMatch (likePat s) field.data

/-- The period condition of `_build_filters` (database.py 187-191):
`(year * 100 + month) BETWEEN from_ym AND to_ym`, added only when both bounds
are present (`is not None`). -/
def periodCond (a b : Option Int) (y m : Int) : Bool :=
  match a, b with
  | some lo, some hi => decide (lo ≤ y * 100 + m) && decide (y * 100 + m ≤ hi)
  | _, _ => true

/-- The filter dictionary built by the UI and consumed by `_build_filters`:
every key independently optional. -/
structure Filters where
  province : Option String
  exam_center : Option String
  driving_school : Option String
  exam_type : Option String
  permit : Option String
  from_ym : Option Int
  to_ym : Option Int
deriving DecidableEq, Repr

/-- Conjunction (`" AND ".join`) of the WHERE clauses of `_build_filters`
(database.py 167-193); the `driving_school` value filters the
`driving_school_name` column. -/
def rowMatches (f : Filters) (r : ExamRow) : Bool :=
  textCond f.province r.province &&
  textCond f.exam_center r.exam_center &&
  textCond f.driving_school r.school_name &&
  textCond f.exam_type r.exam_type &&
  textCond f.permit r.permit &&
  periodCond f.from_ym f.to_ym r.year r.month

/-- The SELECT list of `Database.fetch_table` (database.py 126-139). -/
structure TableRow where
  province : String
  exam_center : String
  driving_school_name : String
  exam_type : String
  permit_name : String
  year : Int
  month : Int
  passed : Int
  failed : Int
  presented : Int
deriving DecidableEq, Repr

/-- Projection of a stored record to the SELECT list of `fetch_table`,
including the derived `(passed + failed) AS presented` column. -/
def projectRow (r : ExamRow) : TableRow :=
  ⟨r.province, r.exam_center, r.school_name, r.exam_type, r.permit,
    r.year, r.month, r.passed, r.failed, r.passed + r.failed⟩

/-- The `ORDER BY year, month, province` key order of `fetch_table`
(database.py 142). -/
def tableLE (a b : TableRow) : Prop :=
  a.year < b.year ∨
    (a.year = b.year ∧
      (a.month < b.month ∨ (a.month = b.month ∧ a.province ≤ b.province)))

instance : DecidableRel tableLE := fun a b => by
  unfold tableLE; infer_instance

instance : IsTotal TableRow tableLE := ⟨by
  intro a b
  unfold tableLE
  rcases lt_trichotomy a.year b.year with h | h | h
  · exact Or.inl (Or.inl h)
  · rcases lt_trichotomy a.month b.month with hm | hm | hm
    · exact Or.inl (Or.inr ⟨h, Or.inl hm⟩)
    · rcases le_total a.province b.province with hp | hp
      · exact Or.inl (Or.inr ⟨h, Or.inr ⟨hm, hp⟩⟩)
      · exact Or.inr (Or.inr ⟨h.symm, Or.inr ⟨hm.symm, hp⟩⟩)
    · exact Or.inr (Or.inr ⟨h.symm, Or.inl hm⟩)
  · exact Or.inr (Or.inl h)⟩

instance : IsTrans TableRow tableLE := ⟨by
  intro a b c hab hbc
  unfold tableLE at hab hbc ⊢
  rcases hab with h1 | ⟨hy1, h1⟩ <;> rcases hbc with h2 | ⟨hy2, h2⟩
  · exact Or.inl (lt_trans h1 h2)
  · exact Or.inl (hy2 ▸ h1)
  · exact Or.inl (hy1 ▸ h2)
  · refine Or.inr ⟨hy1.trans hy2, ?_⟩
    rcases h1 with hm1 | ⟨hm1, hp1⟩ <;> rcases h2 with hm2 | ⟨hm2, hp2⟩
    · exact Or.inl (lt_trans hm1 hm2)
    · exact Or.inl (hm2 ▸ hm1)
    · exact Or.inl (hm1 ▸ hm2)
    · exact Or.inr ⟨hm1.trans hm2, le_trans hp1 hp2⟩⟩

/-- The header labels of `fetch_table` (database.py 9-20, 148). -/
def tableHeaders : List String :=
  ["Province", "Exam Center", "Driving School", "Exam Type", "Permit",
    "Year", "Month", "Passed", "Failed", "Presented"]

/-- Embedding of `Database.fetch_table` (database.py 124-149): WHERE filter,
projection with the derived `presented` column, `ORDER BY year, month,
province`. -/
def fetch_table (f : Filters) (recs : List ExamRow) :
    List String × List TableRow :=
  (tableHeaders,
    List.insertionSort tableLE ((recs.filter (rowMatches f)).map projectRow))

/-- One step of SQL `GROUP BY exam_type` evaluation: fold a record into the
accumulated `(exam_type, SUM(passed), SUM(failed))` groups, opening a new
group when the key is new. -/
def addToGroups (gs : List (String × Int × Int)) (r : ExamRow) :
    List (String × Int × Int) :=
  match gs with
  | [] => [(r.exam_type, r.passed, r.failed)]
  | (k, p, fl) :: rest =>
    if k = r.exam_type then (k, p + r.passed, fl + r.failed) :: rest
    else (k, p, fl) :: addToGroups rest r

/-- The `ORDER BY exam_type` order of `fetch_chart_data` (database.py 159). -/
def chartLE (a b : String × Int × Int) : Prop := a.1 ≤ b.1

instance : DecidableRel chartLE := fun a b => by
  unfold chartLE; infer_instance

instance : IsTotal (String × Int × Int) chartLE :=
  ⟨fun a b => le_total a.1 b.1⟩

instance : IsTrans (String × Int × Int) chartLE :=
  ⟨fun _ _ _ h1 h2 => le_trans h1 h2⟩

/-- Embedding of `Database.fetch_chart_data` (database.py 151-164):
`SELECT exam_type, SUM(passed), SUM(failed) ... GROUP BY exam_type ORDER BY
exam_type` over the records matching the filter. -/
def fetch_chart_data (f : Filters) (recs : List ExamRow) :
    List (String × Int × Int) :=
  List.insertionSort chartLE ((recs.filter (rowMatches f)).foldl addToGroups [])

/-- Modelled from the spec (section 4.2 Filter): a text condition is a
case-insensitive "contains", applied only when the value is present and
non-empty.  This is the spec-side matcher compared against the `LIKE`-based
code in the refinement theorem for fetch_table. -/
def specTextOk (v : Option String) (field : String) : Bool :=
  match v with
  | none => true
  | some s => s = "" || containsSub (lowerL field.data) (lowerL s.data)

/-- Modelled from the spec (section 4.2 Filter): conjunction of the five
case-insensitive substring conditions and the inclusive period-range bound. -/
def specRowOk (f : Filters) (r : ExamRow) : Bool :=
  specTextOk f.province r.province &&
  specTextOk f.exam_center r.exam_center &&
  specTextOk f.driving_school r.school_name &&
  specTextOk f.exam_type r.exam_type &&
  specTextOk f.permit r.permit &&
  periodCond f.from_ym f.to_ym r.year r.month

/-- A string free of the SQL LIKE wildcard characters. -/
def wildcardFree (s : String) : Prop := ∀ c ∈ s.data, c ≠ '%' ∧ c ≠ '_'

/-- An optional filter value free of the SQL LIKE wildcard characters. -/
def optWildcardFree (v : Option String) : Prop :=
  ∀ s, v = some s → wildcardFree s

/-- All five text values of a filter are wildcard-free. -/
def filtersWildcardFree (f : Filters) : Prop :=
  optWildcardFree f.province ∧ optWildcardFree f.exam_center ∧
  optWildcardFree f.driving_school ∧ optWildcardFree f.exam_type ∧
  optWildcardFree f.permit

/-- Value of a digit-character list read in base 10, the spec-side meaning of
"stripping thousands separators before integer parsing". -/
def digitsVal (l : List Char) : Nat :=
  l.foldl (fun a c => 10 * a + (c.toNat - '0'.toNat)) 0

/-- Concrete fixture: a well-formed file with a header line and one valid data
row for period (2023, 5). -/
def csvOneRow : List (List String) :=
  [["desc_provincia", "centro_examen", "mes", "anyo", "num_aptos", "num_no_aptos"],
   ["Madrid", "C1", "5", "2023", "10", "2"]]

/-- The record parsed from `csvOneRow`. -/
def recOneRow : ExamRow :=
  ⟨"Madrid", "C1", "", "", "", 5, 2023, "", "", 10, 0, 0, 0, 0, 2⟩

/-- Concrete fixture: a file whose rows span periods (2023, 1) and (2023, 2),
with one (2023, 1) row and two (2023, 2) rows. -/
def csvTwoPeriods : List (List String) :=
  [["desc_provincia", "centro_examen", "mes", "anyo", "num_aptos"],
   ["Madrid", "C1", "1", "2023", "3"],
   ["Madrid", "C1", "2", "2023", "4"],
   ["Sevilla", "C2", "2", "2023", "5"]]

/-- The (2023, 1) record parsed from `csvTwoPeriods`. -/
def recJan : ExamRow :=
  ⟨"Madrid", "C1", "", "", "", 1, 2023, "", "", 3, 0, 0, 0, 0, 0⟩

/-- The first (2023, 2) record parsed from `csvTwoPeriods`. -/
def recFeb1 : ExamRow :=
  ⟨"Madrid", "C1", "", "", "", 2, 2023, "", "", 4, 0, 0, 0, 0, 0⟩

/-- The second (2023, 2) record parsed from `csvTwoPeriods`. -/
def recFeb2 : ExamRow :=
  ⟨"Sevilla", "C2", "", "", "", 2, 2023, "", "", 5, 0, 0, 0, 0, 0⟩

/-- Concrete fixture: a file whose single data row carries month 13. -/
def csvMonth13 : List (List String) :=
  [["desc_provincia", "centro_examen", "mes", "anyo", "num_aptos"],
   ["Madrid", "C1", "13", "2023", "3"]]

/-- The record parsed from `csvMonth13`: its month is 13. -/
def recMonth13 : ExamRow :=
  ⟨"Madrid", "C1", "", "", "", 13, 2023, "", "", 3, 0, 0, 0, 0, 0⟩

/-- Concrete fixture: one line, five cells, none resolving any logical field:
no record survives validation. -/
def csvNoValid : List (List String) := [["x", "y", "z", "w", "v"]]

/-- Concrete fixture: the first cell of the first line is not a recognized
province column name, but the second cell is the alias `provincia`, so the
(always first-line-derived) index maps the province field to column 1. -/
def csvAliasShifted : List (List String) :=
  [["x", "provincia", "centro_examen", "mes", "anyo"],
   ["x", "Madrid", "C1", "5", "2023"]]

/-- The record parsed from the second line of `csvAliasShifted`. -/
def recAliasShifted : ExamRow :=
  ⟨"Madrid", "C1", "", "", "", 5, 2023, "", "", 0, 0, 0, 0, 0, 0⟩

/-- The empty store. -/
def dbEmpty : DB := ⟨[], []⟩

/-- A store whose ledger already holds period (2023, 1). -/
def dbWithJan : DB := ⟨[], [(2023, 1)]⟩

/-- A stored record used by the query fixtures. -/
def recMadrid : ExamRow :=
  ⟨"Madrid", "C1", "", "", "", 5, 2023, "", "", 10, 0, 0, 0, 0, 2⟩

/-- A stored record with exam type "A", used by the aggregation fixtures. -/
def recTypeA : ExamRow :=
  ⟨"Sevilla", "C2", "", "", "", 5, 2023, "A", "", 1, 0, 0, 0, 0, 1⟩

/-- A first stored record with exam type "B". -/
def recTypeB1 : ExamRow :=
  ⟨"Madrid", "C1", "", "", "", 5, 2023, "B", "", 10, 0, 0, 0, 0, 2⟩

/-- A second stored record with exam type "B". -/
def recTypeB2 : ExamRow :=
  ⟨"Madrid", "C1", "", "", "", 6, 2023, "B", "", 5, 0, 0, 0, 0, 3⟩

/-- The filter with no active condition. -/
def fNone : Filters := ⟨none, none, none, none, none, none, none⟩

/-- A filter whose province value is the literal string "All". -/
def fAllProvince : Filters := ⟨some "All", none, none, none, none, none, none⟩

/-- A filter whose province value carries the LIKE wildcard `_`. -/
def fWildProvince : Filters := ⟨some "M_drid", none, none, none, none, none, none⟩

/-- A filter with a wildcard-free province value and a period range. -/
def fMadridRange : Filters :=
  ⟨some "adri", none, none, none, none, some 202301, some 202312⟩

end DrivingExams

namespace DrivingExams

/-- Claim C1 — evidence for the code bug: importing a one-row file into the
empty store goes through TWO separate durable commits.  The state committed by
`insert_rows` (its own connection, database.py 104-108) already holds the
record while the ledger is still empty; only the later
`mark_periods_imported` commit (database.py 87-93) adds the period.  A crash
between the two leaves exactly the intermediate state the claim rules out. -/
theorem import_insert_commit_precedes_mark_commit :
    import_csv_run csvOneRow dbEmpty =
      .ok (1, (⟨[recOneRow], []⟩ : DB), (⟨[recOneRow], [(2023, 5)]⟩ : DB)) ∧
    ([recOneRow] : List ExamRow) ≠ [] := by
  exact ⟨rfl, by decide⟩

/-- Claim C2 — counterexample: a file whose data row carries month 13 parses
to a surviving record with `month = 13`, so parse output is not confined to
months 1..12. -/
theorem parse_keeps_month_13 :
    parse_rows csvMonth13 = .ok ([recMonth13], [(2023, 13)]) ∧
    recMonth13.month = 13 := ⟨rfl, rfl⟩

/-- Claim C5 — counterexample: parse raises no error at all on a zero-line
file or on a file with no surviving record (it returns empty results), and
the importing layer raises the SAME single error (`"No data rows found in
the file"`) in both cases — not two distinct errors raised by parse. -/
theorem parse_total_and_single_import_error :
    parse_rows ([] : List (List String)) = .ok ([], []) ∧
    parse_rows csvNoValid = .ok ([], []) ∧
    import_csv ([] : List (List String)) dbEmpty = .error .noData ∧
    import_csv csvNoValid dbEmpty = .error .noData := ⟨rfl, rfl, rfl, rfl⟩

/-- Claim C7 — counterexample: numeric coercion is not confined to
non-negative integers; the parsable input "-5" coerces to the negative
integer -5 rather than to a value of the declared non-negative type. -/
theorem to_int_returns_negative :
    to_int "-5" = -5 ∧ to_int "-5" < 0 := ⟨rfl, by decide⟩

/-- Claim C9 — counterexample: the first cell "x" of this file contains no
recognized province-column name, yet parse returns one record, because the
alias `provincia` sits in the SECOND cell of the first line and the index is
built from the whole first line, so the province field resolves to column 1. -/
theorem parse_alias_shifted_yields_record :
    containsSub (normalizeHeader "x").data "provincia".data = false ∧
    containsSub (normalizeHeader "x").data "desc_provincia".data = false ∧
    parse_rows csvAliasShifted = .ok ([recAliasShifted], [(2023, 5)]) :=
  ⟨rfl, rfl, rfl⟩

/-- Claim C10 — confirmed: the filter value "M_drid" contains the LIKE
wildcard `_`, is not a literal (even case-insensitive) substring of "Madrid",
and yet `fetch_table` returns the stored "Madrid" row, because the value is
interpolated unescaped into the `LIKE '%...%'` pattern where `_` matches any
single character. -/
theorem fetch_table_like_wildcard_matches :
    ('_' ∈ "M_drid".data) ∧
    containsSub (lowerL "Madrid".data) (lowerL "M_drid".data) = false ∧
    (fetch_table fWildProvince [recMadrid]).2 = [projectRow recMadrid] :=
  ⟨by decide, rfl, rfl⟩

/-- Claim C6 — counterexample: `fetch_table` does not special-case the filter
value "All".  With `province = "All"` the row whose province is "Madrid" is
filtered out (the condition `LIKE '%All%'` IS applied), although the claim
says the condition is inactive for "All" — under which the result would equal
the unfiltered result. -/
theorem fetch_table_all_is_matched_literally :
    (fetch_table fAllProvince [recMadrid]).2 = [] ∧
    (fetch_table fNone [recMadrid]).2 = [projectRow recMadrid] := ⟨rfl, rfl⟩

/-- A record produced by the per-line loop passed the mandatory-field check of
csv_importer.py lines 78-79. -/
theorem parseRow_mandatory {header r : List String} {e : ExamRow}
    (h : parseRow header r = some e) :
    e.province ≠ "" ∧ e.exam_center ≠ "" ∧ e.year ≠ 0 ∧ e.month ≠ 0 := by
  simp only [parseRow] at h
  split_ifs at h with h1 h2
  all_goals
    first
      | exact Option.noConfusion h
      | (injection h with h
         push_neg at h2
         subst h
         exact h2)

/-- A key that does not occur in the header is absent from the index. -/
theorem lastIdxFrom_eq_none {l : List String} {key : String} (h : key ∉ l) :
    ∀ i, lastIdxFrom l key i = none := by
  induction l with
  | nil => intro i; rfl
  | cons a t ih =>
    intro i
    have ha : a ≠ key := fun hak => h (hak ▸ List.mem_cons_self a t)
    have ht : key ∉ t := fun hkt => h (List.mem_cons_of_mem a hkt)
    simp only [lastIdxFrom, ih ht (i + 1), if_neg ha]

/-- When none of the candidate keys occurs in the header, the field extractor
returns the empty string. -/
theorem getF_eq_empty {header r keys : List String}
    (h : ∀ k ∈ keys, k ∉ header) : getF header r keys = "" := by
  induction keys with
  | nil => rfl
  | cons k ks ih =>
    simp only [getF, lastIdx, lastIdxFrom_eq_none (h k (List.mem_cons_self k ks)) 0]
    exact ih fun k2 hk2 => h k2 (List.mem_cons_of_mem k hk2)

/-- Claim C2 (amended): every record in parse output has a non-empty province,
a non-empty exam_center, a nonzero year and a nonzero month — the code's
truthiness check at csv_importer.py 78-79; it does not bound month by 12 nor
force year positive. -/
theorem parse_rows_mandatory_fields (rows : List (List String))
    (parsed : List ExamRow) (per : List (Int × Int)) (e : ExamRow)
    (hp : parse_rows rows = .ok (parsed, per)) (he : e ∈ parsed) :
    e.province ≠ "" ∧ e.exam_center ≠ "" ∧ e.year ≠ 0 ∧ e.month ≠ 0 := by
  cases rows with
  | nil =>
    simp only [parse_rows, Except.ok.injEq, Prod.mk.injEq] at hp
    rw [← hp.1] at he
    cases he
  | cons first rest =>
    simp only [parse_rows] at hp
    split_ifs at hp <;>
      first
        | exact Except.noConfusion hp
        | (simp only [Except.ok.injEq, Prod.mk.injEq] at hp
           rw [← hp.1] at he
           obtain ⟨row, _, hsome⟩ := List.mem_filterMap.mp he
           exact parseRow_mandatory hsome)

/-- Claim C2 witness: the record parsed from `csvOneRow` satisfies the
mandatory-field facts. -/
theorem parse_rows_mandatory_fields_witness :
    recOneRow.province ≠ "" ∧ recOneRow.exam_center ≠ "" ∧
    recOneRow.year ≠ 0 ∧ recOneRow.month ≠ 0 :=
  parse_rows_mandatory_fields csvOneRow [recOneRow] [(2023, 5)] recOneRow rfl
    (by decide)

/-- Claim C9 (amended): the index is always built from the first line, so when
no cell of the first line normalizes to a recognized province alias
(`provincia` / `desc_provincia`), the province field of every line is empty,
every record is discarded, and parse returns zero records. -/
theorem parse_rows_no_alias_in_first_line (first : List String)
    (rest : List (List String)) (hne : ¬ first.isEmpty)
    (h : ∀ c ∈ first,
      normalizeHeader c ≠ "provincia" ∧ normalizeHeader c ≠ "desc_provincia") :
    parse_rows (first :: rest) = .ok ([], []) := by
  have hprov : "provincia" ∉ first.map normalizeHeader := by
    rw [List.mem_map]
    rintro ⟨c, hc, hcn⟩
    exact (h c hc).1 hcn
  have hdesc : "desc_provincia" ∉ first.map normalizeHeader := by
    rw [List.mem_map]
    rintro ⟨c, hc, hcn⟩
    exact (h c hc).2 hcn
  have hrow : ∀ r, parseRow (first.map normalizeHeader) r = none := by
    intro r
    simp only [parseRow]
    split_ifs with h1 h2
    · rfl
    · rfl
    · exfalso
      apply h2
      left
      exact getF_eq_empty (by
        intro k hk
        simp only [List.mem_cons, List.not_mem_nil, or_false] at hk
        rcases hk with hk | hk <;> subst hk
        · exact hdesc
        · exact hprov)
  have hfm : ∀ l : List (List String),
      l.filterMap (parseRow (first.map normalizeHeader)) = [] := by
    intro l
    exact List.filterMap_eq_nil_iff.mpr fun a _ => hrow a
  simp only [parse_rows, if_neg hne, hfm]
  rfl

/-- Claim C9 witness: a five-cell single line with no recognized alias parses
to zero records. -/
theorem parse_rows_no_alias_witness :
    parse_rows [["x", "y", "z", "w", "v"]] = .ok ([], []) :=
  parse_rows_no_alias_in_first_line ["x", "y", "z", "w", "v"] [] (by decide)
    (by decide)

/-- Claim C5 (amended): a single error — `ValueError("No data rows found in
the file")`, raised by `import_csv`, not by `parse_rows` — covers both the
zero-line file and the file where no record survives validation: it is raised
exactly when parse's surviving-record list is empty. -/
theorem import_noData_iff_parse_empty (csv : List (List String)) (db : DB)
    (parsed : List ExamRow) (per : List (Int × Int))
    (hp : parse_rows csv = .ok (parsed, per)) :
    import_csv csv db = .error .noData ↔ parsed = [] := by
  unfold import_csv import_csv_run
  rw [hp]
  by_cases hnil : parsed.isEmpty
  · simp only [if_pos hnil, Except.map]
    simpa using List.isEmpty_iff.mp hnil
  · simp only [if_neg hnil]
    have : parsed ≠ [] := fun hh => hnil (by simp [hh])
    split_ifs with h2 <;> simp [Except.map, this]

/-- Claim C5 witness: at the no-surviving-record fixture the import error is
exactly `noData`. -/
theorem import_noData_witness :
    import_csv csvNoValid dbEmpty = .error .noData :=
  (import_noData_iff_parse_empty csvNoValid dbEmpty [] [] rfl).mpr rfl

/-- Membership in the ledger after marking: exactly the old entries and the
newly marked periods (the `INSERT OR IGNORE` adds nothing else and drops
nothing). -/
theorem mem_markPeriods {p : Int × Int} :
    ∀ {ps ledger : List (Int × Int)},
      p ∈ markPeriods ledger ps ↔ p ∈ ledger ∨ p ∈ ps := by
  intro ps
  induction ps with
  | nil => intro ledger; simp [markPeriods]
  | cons q ps ih =>
    intro ledger
    show p ∈ markPeriods (if q ∈ ledger then ledger else ledger ++ [q]) ps ↔ _
    rw [ih]
    by_cases hq : q ∈ ledger
    · rw [if_pos hq]
      constructor
      · rintro (h | h)
        · exact Or.inl h
        · exact Or.inr (List.mem_cons_of_mem q h)
      · rintro (h | h)
        · exact Or.inl h
        · rcases List.mem_cons.mp h with h | h
          · exact Or.inl (h ▸ hq)
          · exact Or.inr h
    · rw [if_neg hq]
      simp only [List.mem_append, List.mem_singleton, List.mem_cons]
      tauto

/-- Set-deduplication keeps exactly the original members. -/
theorem mem_dedupFirst {p : Int × Int} {ps : List (Int × Int)} :
    p ∈ dedupFirst ps ↔ p ∈ ps := by
  have h : dedupFirst ps = markPeriods [] ps := rfl
  rw [h, mem_markPeriods]
  simp

/-- Claim C3 (confirmed): when at least one parsed record's period is absent
from the ledger, import succeeds; the inserted rows are exactly the parsed
records whose period is not in the ledger (in file order, appended to the
table), records of already-imported periods are skipped, and the returned
count is exactly the number of parsed records whose period was absent. -/
theorem import_partitions_by_period (csv : List (List String)) (db : DB)
    (parsed : List ExamRow) (per : List (Int × Int))
    (hp : parse_rows csv = .ok (parsed, per))
    (hnew : ∃ r ∈ parsed, periodOf r ∉ db.ledger) :
    ∃ db2 : DB,
      import_csv csv db =
        .ok ((parsed.filter fun r => decide (periodOf r ∉ db.ledger)).length, db2) ∧
      db2.rows = db.rows ++ (parsed.filter fun r => decide (periodOf r ∉ db.ledger)) := by
  have hfun : (fun r => !(is_period_imported db r.year r.month)) =
      (fun r => decide (periodOf r ∉ db.ledger)) := by
    funext r
    simp [is_period_imported, periodOf, decide_not]
  obtain ⟨r0, hr0, hr0new⟩ := hnew
  have hne : ¬ parsed.isEmpty := by
    cases parsed with
    | nil => cases hr0
    | cons a l => simp
  have hmem : r0 ∈ parsed.filter fun r => decide (periodOf r ∉ db.ledger) :=
    List.mem_filter.mpr ⟨hr0, by simpa using hr0new⟩
  have hne2 : ¬ (parsed.filter fun r => decide (periodOf r ∉ db.ledger)).isEmpty := by
    cases hfe : parsed.filter fun r => decide (periodOf r ∉ db.ledger) with
    | nil => rw [hfe] at hmem; cases hmem
    | cons a l => simp
  refine ⟨⟨db.rows ++ (parsed.filter fun r => decide (periodOf r ∉ db.ledger)),
      markPeriods db.ledger
        (dedupFirst ((parsed.filter
          fun r => decide (periodOf r ∉ db.ledger)).map periodOf))⟩, ?_, rfl⟩
  unfold import_csv import_csv_run
  rw [hp, hfun]
  dsimp only
  rw [if_neg hne, if_neg hne2]
  rfl

/-- Claim C3 witness: importing the two-period file into a store whose ledger
already holds (2023, 1) inserts exactly the two (2023, 2) rows and returns 2. -/
theorem import_partitions_witness :
    ∃ db2 : DB, import_csv csvTwoPeriods dbWithJan = .ok (2, db2) ∧
      db2.rows = [recFeb1, recFeb2] := by
  obtain ⟨db2, hok, hrows⟩ :=
    import_partitions_by_period csvTwoPeriods dbWithJan
      [recJan, recFeb1, recFeb2] [(2023, 1), (2023, 2)] rfl
      ⟨recFeb1, by decide, by decide⟩
  have hfe : ([recJan, recFeb1, recFeb2].filter
      fun r => decide (periodOf r ∉ dbWithJan.ledger)) = [recFeb1, recFeb2] := by
    decide
  rw [hfe] at hok hrows
  exact ⟨db2, hok, by simpa using hrows⟩

/-- Claim C4 (confirmed): after any successful import of a file, re-importing
the same file against the resulting store raises `NothingToImport` (so 0 rows
are inserted and the store is unchanged), because every period of the file is
by then in the ledger. -/
theorem import_twice_nothing_to_import (csv : List (List String)) (db : DB)
    (n : Nat) (db2 : DB) (h : import_csv csv db = .ok (n, db2)) :
    import_csv csv db2 = .error .nothingToImport := by
  unfold import_csv import_csv_run at h ⊢
  cases hp : parse_rows csv with
  | error e =>
    rw [hp] at h
    simp [Except.map] at h
  | ok pr =>
    obtain ⟨parsed, per⟩ := pr
    rw [hp] at h
    dsimp only at h ⊢
    split_ifs at h with h1 h2
    · exact Except.noConfusion h
    · exact Except.noConfusion h
    · simp only [Except.map, Except.ok.injEq, Prod.mk.injEq] at h
      rw [if_neg h1]
      have hdb2 : db2.ledger = markPeriods db.ledger
          (dedupFirst ((parsed.filter
            fun r => !(is_period_imported db r.year r.month)).map periodOf)) := by
        rw [← h.2]
      have hall : ∀ r ∈ parsed, (r.year, r.month) ∈ db2.ledger := by
        intro r hr
        rw [hdb2, mem_markPeriods]
        by_cases hin : (r.year, r.month) ∈ db.ledger
        · exact Or.inl hin
        · refine Or.inr (mem_dedupFirst.mpr ?_)
          refine List.mem_map.mpr ⟨r, ?_, rfl⟩
          exact List.mem_filter.mpr ⟨hr, by simp [is_period_imported, hin]⟩
      have hnil : (parsed.filter
          fun r => !(is_period_imported db2 r.year r.month)) = [] := by
        refine List.filter_eq_nil_iff.mpr fun r hr => ?_
        simp [is_period_imported, hall r hr]
      rw [hnil]
      rfl

/-- Claim C4 witness: the second import of `csvOneRow` against the store left
by its first import fails with `NothingToImport`. -/
theorem import_twice_witness :
    import_csv csvOneRow (⟨[recOneRow], [(2023, 5)]⟩ : DB) =
      .error .nothingToImport :=
  import_twice_nothing_to_import csvOneRow dbEmpty 1
    ⟨[recOneRow], [(2023, 5)]⟩ rfl

/-- On an all-digit tail the digit parser accumulates the base-10 value. -/
theorem pyDigits_all_digits :
    ∀ (l : List Char) (acc : Nat), (∀ c ∈ l, c.isDigit) →
      pyDigits acc l =
        some (l.foldl (fun a c => 10 * a + (c.toNat - '0'.toNat)) acc) := by
  intro l
  induction l with
  | nil => intro acc _; rfl
  | cons c rest ih =>
    intro acc h
    have hc : c.isDigit := h c (List.mem_cons_self c rest)
    have hu : c ≠ '_' := by
      intro he
      rw [he] at hc
      exact absurd hc (by decide)
    rw [pyDigits.eq_def]
    dsimp only
    rw [if_neg hu, if_pos hc, List.foldl_cons]
    exact ih _ fun d hd => h d (List.mem_cons_of_mem c hd)

/-- On a non-empty all-digit string the unsigned parser returns its value. -/
theorem pyDigitsStart_all_digits (l : List Char) (hne : l ≠ [])
    (h : ∀ c ∈ l, c.isDigit) : pyDigitsStart l = some (digitsVal l) := by
  cases l with
  | nil => exact absurd rfl hne
  | cons c rest =>
    have hc : c.isDigit := h c (List.mem_cons_self c rest)
    simp only [pyDigitsStart, if_pos hc, digitsVal, List.foldl_cons]
    have : 10 * 0 + (c.toNat - '0'.toNat) = c.toNat - '0'.toNat := by omega
    rw [this]
    exact pyDigits_all_digits rest _ fun d hd => h d (List.mem_cons_of_mem c hd)

/-- On a non-empty all-digit string `int(...)` returns its non-negative
value. -/
theorem pyInt_all_digits (l : List Char) (hne : l ≠ [])
    (h : ∀ c ∈ l, c.isDigit) : pyInt l = some (Int.ofNat (digitsVal l)) := by
  cases l with
  | nil => exact absurd rfl hne
  | cons c rest =>
    have hc : c.isDigit := h c (List.mem_cons_self c rest)
    have hplus : c ≠ '+' := by
      intro he; rw [he] at hc; exact absurd hc (by decide)
    have hminus : c ≠ '-' := by
      intro he; rw [he] at hc; exact absurd hc (by decide)
    simp only [pyInt, if_neg hplus, if_neg hminus,
      pyDigitsStart_all_digits (c :: rest) (by simp) h]
    rfl

/-- On a digit-free string the unsigned parser fails. -/
theorem pyDigitsStart_no_digit (l : List Char)
    (h : ∀ c ∈ l, ¬ c.isDigit) : pyDigitsStart l = none := by
  cases l with
  | nil => rfl
  | cons c rest =>
    simp only [pyDigitsStart, if_neg (h c (List.mem_cons_self c rest))]

/-- On a digit-free string `int(...)` raises, i.e. returns `none`. -/
theorem pyInt_no_digit (l : List Char) (h : ∀ c ∈ l, ¬ c.isDigit) :
    pyInt l = none := by
  cases l with
  | nil => rfl
  | cons c rest =>
    have hrest : ∀ d ∈ rest, ¬ d.isDigit :=
      fun d hd => h d (List.mem_cons_of_mem c hd)
    simp only [pyInt]
    split_ifs with h1 h2
    · rw [pyDigitsStart_no_digit rest hrest]; rfl
    · rw [pyDigitsStart_no_digit rest hrest]; rfl
    · rw [pyDigitsStart_no_digit (c :: rest) h]; rfl

/-- Stripping whitespace keeps only characters of the original string. -/
theorem mem_trimL {c : Char} {l : List Char} (h : c ∈ trimL l) : c ∈ l := by
  unfold trimL at h
  rw [List.mem_reverse] at h
  have h2 := (List.dropWhile_sublist (l := (l.dropWhile isSpaceChar).reverse)
    (p := isSpaceChar)).mem h
  rw [List.mem_reverse] at h2
  exact (List.dropWhile_sublist (l := l) (p := isSpaceChar)).mem h2

/-- Whitespace-stripping is the identity on whitespace-free strings. -/
theorem trimL_eq_self {l : List Char} (h : ∀ c ∈ l, ¬ isSpaceChar c) :
    trimL l = l := by
  unfold trimL
  have h1 : l.dropWhile isSpaceChar = l := by
    rw [List.dropWhile_eq_self_iff]
    cases l with
    | nil => simp
    | cons c rest => simpa using h c (List.mem_cons_self c rest)
  rw [h1]
  have h2 : l.reverse.dropWhile isSpaceChar = l.reverse := by
    rw [List.dropWhile_eq_self_iff]
    cases hr : l.reverse with
    | nil => simp
    | cons c rest =>
      have : c ∈ l := by
        rw [← List.mem_reverse, hr]
        exact List.mem_cons_self c rest
      simpa using h c this
  rw [h2, List.reverse_reverse]

/-- Claim C7 (amended): numeric coercion is a total function that strips the
thousands separators `.` and `,` before integer parsing and never raises: a
string of digits and separators (with at least one digit) coerces to the value
of its digit characters in order, and a string with no digit at all coerces to
0.  (The output is not confined to the non-negative range: see the
counterexample `to_int_returns_negative`.) -/
theorem to_int_strips_separators_and_defaults (s : String) :
    ((∀ c ∈ s.data, c.isDigit ∨ c = '.' ∨ c = ',') →
      (∃ c ∈ s.data, c.isDigit) →
        to_int s = Int.ofNat (digitsVal (s.data.filter fun c => c.isDigit))) ∧
    ((∀ c ∈ s.data, ¬ c.isDigit) → to_int s = 0) := by
  constructor
  · intro hall hex
    have hsep : removeSeps s.data = s.data.filter fun c => c.isDigit := by
      unfold removeSeps
      refine List.filter_congr fun c hc => ?_
      rcases hall c hc with h | h | h
      · have h1 : c ≠ '.' := by
          intro he; rw [he] at h; exact absurd h (by decide)
        have h2 : c ≠ ',' := by
          intro he; rw [he] at h; exact absurd h (by decide)
        simp [h, h1, h2]
      · simp [h]
      · simp [h]
    have hdig : ∀ c ∈ s.data.filter (fun c => c.isDigit), c.isDigit :=
      fun c hc => List.of_mem_filter hc
    have hne : s.data.filter (fun c => c.isDigit) ≠ [] := by
      obtain ⟨c, hc, hcd⟩ := hex
      have : c ∈ s.data.filter fun c => c.isDigit :=
        List.mem_filter.mpr ⟨hc, hcd⟩
      intro he
      rw [he] at this
      cases this
    have htrim : trimL (s.data.filter fun c => c.isDigit) =
        s.data.filter fun c => c.isDigit := by
      refine trimL_eq_self fun c hc => ?_
      have hd := hdig c hc
      intro hs
      have hs2 : c = ' ' ∨ c = '\t' ∨ c = '\n' ∨ c = '\r' ∨
          c = '\x0b' ∨ c = '\x0c' := by
        simpa [isSpaceChar] using hs
      rcases hs2 with h | h | h | h | h | h <;>
        (rw [h] at hd; exact absurd hd (by decide))
    unfold to_int
    rw [hsep, htrim, pyInt_all_digits _ hne hdig]
    rfl
  · intro hall
    have h1 : ∀ c ∈ trimL (removeSeps s.data), ¬ c.isDigit := by
      intro c hc
      exact hall c (List.mem_of_mem_filter (mem_trimL hc))
    unfold to_int
    rw [pyInt_no_digit _ h1]
    rfl

/-- Claim C7 witness: the separator input "1.234" coerces to 1234 and the
unparsable input "N/D" coerces to 0. -/
theorem to_int_coercion_witness :
    to_int "1.234" = 1234 ∧ to_int "N/D" = 0 := by
  constructor
  · have h := (to_int_strips_separators_and_defaults "1.234").1
      (by decide) (by decide)
    rw [h]
    rfl
  · exact (to_int_strips_separators_and_defaults "N/D").2 (by decide)

/-- Folding one record into the groups leaves the key list unchanged when its
exam type already has a group, and appends the new key otherwise. -/
theorem addToGroups_map_fst (gs : List (String × Int × Int)) (r : ExamRow) :
    (addToGroups gs r).map (fun g => g.1) =
      if r.exam_type ∈ gs.map (fun g => g.1) then gs.map (fun g => g.1)
      else gs.map (fun g => g.1) ++ [r.exam_type] := by
  induction gs with
  | nil => simp [addToGroups]
  | cons g rest ih =>
    obtain ⟨k0, p, fl⟩ := g
    by_cases h0 : k0 = r.exam_type
    · simp [addToGroups, h0]
    · simp only [addToGroups, if_neg h0, List.map_cons, ih]
      by_cases hm : r.exam_type ∈ rest.map (fun g => g.1)
      · simp [hm, Ne.symm h0]
      · simp [hm, Ne.symm h0]

/-- Folding a record into the groups does not touch the group of a different
key. -/
theorem find?_addToGroups_ne (gs : List (String × Int × Int)) (r : ExamRow)
    (k : String) (hk : k ≠ r.exam_type) :
    (addToGroups gs r).find? (fun g => decide (g.1 = k)) =
      gs.find? (fun g => decide (g.1 = k)) := by
  induction gs with
  | nil => simp [addToGroups, Ne.symm hk]
  | cons g rest ih =>
    obtain ⟨k0, p, fl⟩ := g
    by_cases h0 : k0 = r.exam_type
    · have hne : ¬ k0 = k := fun he => hk (he ▸ h0)
      simp [addToGroups, h0, List.find?, hne, Ne.symm hk]
    · by_cases h1 : k0 = k
      · simp only [addToGroups, if_neg h0]
        simp [List.find?, h1]
      · simp only [addToGroups, if_neg h0]
        simp [List.find?, h1, ih]

/-- Folding a record into the groups adds its passed/failed counts to the
(first) group of its key, creating that group if absent. -/
theorem find?_addToGroups_eq (gs : List (String × Int × Int)) (r : ExamRow) :
    (addToGroups gs r).find? (fun g => decide (g.1 = r.exam_type)) =
      match gs.find? (fun g => decide (g.1 = r.exam_type)) with
      | some g => some (g.1, g.2.1 + r.passed, g.2.2 + r.failed)
      | none => some (r.exam_type, r.passed, r.failed) := by
  induction gs with
  | nil => simp [addToGroups]
  | cons g rest ih =>
    obtain ⟨k0, p, fl⟩ := g
    by_cases h0 : k0 = r.exam_type
    · subst h0
      simp [addToGroups, List.find?]
    · simp [addToGroups, h0, List.find?, ih]

/-- A key has no group exactly when it is not among the group keys. -/
theorem find?_fst_eq_none_iff (gs : List (String × Int × Int)) (k : String) :
    gs.find? (fun g => decide (g.1 = k)) = none ↔
      k ∉ gs.map (fun g => g.1) := by
  rw [List.find?_eq_none]
  constructor
  · intro h hk
    obtain ⟨g, hg, hfst⟩ := List.mem_map.mp hk
    exact h g hg (by simpa using hfst)
  · intro h g hg
    simp only [decide_eq_true_eq]
    intro he
    exact h (List.mem_map.mpr ⟨g, hg, he⟩)

/-- With pairwise-distinct keys, looking up the key of a member finds that
member. -/
theorem find?_mem_of_nodup :
    ∀ (gs : List (String × Int × Int)),
      ((gs.map fun g => g.1).Nodup) → ∀ g ∈ gs,
        gs.find? (fun x => decide (x.1 = g.1)) = some g := by
  intro gs
  induction gs with
  | nil => intro _ g hg; cases hg
  | cons a rest ih =>
    intro hnd g hg
    rcases List.mem_cons.mp hg with hg | hg
    · subst hg
      simp [List.find?]
    · by_cases h1 : a.1 = g.1
      · exfalso
        have : g.1 ∈ rest.map fun x => x.1 := List.mem_map.mpr ⟨g, hg, rfl⟩
        rw [List.map_cons, List.nodup_cons] at hnd
        exact hnd.1 (h1 ▸ this)
      · rw [List.map_cons, List.nodup_cons] at hnd
        simp only [List.find?, h1]
        simpa [h1] using ih hnd.2 g hg

/-- The group accumulated for key `k` after folding the matching records `m`
on top of `gs`: existing groups gain the sums of `k`-typed records, a fresh
group is created when `k` appears in `m`, and no group appears otherwise. -/
theorem find?_foldl_addToGroups (k : String) :
    ∀ (m : List ExamRow) (gs : List (String × Int × Int)),
      (m.foldl addToGroups gs).find? (fun g => decide (g.1 = k)) =
        match gs.find? (fun g => decide (g.1 = k)) with
        | some g => some (g.1,
            g.2.1 + ((m.filter fun r => decide (r.exam_type = k)).map
              (fun r => r.passed)).sum,
            g.2.2 + ((m.filter fun r => decide (r.exam_type = k)).map
              (fun r => r.failed)).sum)
        | none =>
          if k ∈ m.map (fun r => r.exam_type) then
            some (k,
              ((m.filter fun r => decide (r.exam_type = k)).map
                (fun r => r.passed)).sum,
              ((m.filter fun r => decide (r.exam_type = k)).map
                (fun r => r.failed)).sum)
          else none := by
  intro m
  induction m with
  | nil =>
    intro gs
    rw [List.foldl_nil]
    cases hf : gs.find? (fun g => decide (g.1 = k)) with
    | none => simp
    | some g => simp
  | cons r m ih =>
    intro gs
    rw [List.foldl_cons, ih (addToGroups gs r)]
    by_cases hk : r.exam_type = k
    · subst hk
      rw [find?_addToGroups_eq gs r]
      cases hf : gs.find? (fun g => decide (g.1 = r.exam_type)) with
      | some g =>
        simp only [List.filter_cons, decide_True, List.map_cons, List.sum_cons,
          List.mem_cons, true_or, if_pos, List.map_cons]
        simp [add_assoc]
      | none =>
        simp [List.filter_cons]
    · rw [find?_addToGroups_ne gs r k fun he => hk he.symm]
      cases hf : gs.find? (fun g => decide (g.1 = k)) with
      | some g =>
        have : (List.filter (fun r => decide (r.exam_type = k)) (r :: m)) =
            List.filter (fun r => decide (r.exam_type = k)) m := by
          simp [List.filter_cons, hk]
        simp [this]
      | none =>
        have h1 : (List.filter (fun r => decide (r.exam_type = k)) (r :: m)) =
            List.filter (fun r => decide (r.exam_type = k)) m := by
          simp [List.filter_cons, hk]
        have h2 : (k ∈ (r :: m).map fun r => r.exam_type) ↔
            (k ∈ m.map fun r => r.exam_type) := by
          simp [Ne.symm hk]
        simp only [h1, h2]

/-- Folding records into the groups preserves distinctness of the keys. -/
theorem nodup_fst_foldl_addToGroups :
    ∀ (m : List ExamRow) (gs : List (String × Int × Int)),
      ((gs.map fun g => g.1).Nodup) →
      (((m.foldl addToGroups gs).map fun g => g.1).Nodup) := by
  intro m
  induction m with
  | nil => intro gs h; exact h
  | cons r m ih =>
    intro gs h
    rw [List.foldl_cons]
    refine ih (addToGroups gs r) ?_
    rw [addToGroups_map_fst]
    split_ifs with hm
    · exact h
    · simp [List.nodup_append, h, hm]

/-- Claim C8 (confirmed): for every filter, `fetch_chart_data` returns rows
sorted by exam_type ascending, with pairwise-distinct exam types, whose type
set is exactly the set of exam types of the records matching the filter, and
whose two sums are the arithmetic sums of passed and failed over the matching
records of that exam type. -/
theorem fetch_chart_data_grouped (f : Filters) (recs : List ExamRow) :
    List.Sorted chartLE (fetch_chart_data f recs) ∧
    (((fetch_chart_data f recs).map fun g => g.1).Nodup) ∧
    (∀ k : String, (k ∈ (fetch_chart_data f recs).map fun g => g.1) ↔
      k ∈ (recs.filter (rowMatches f)).map fun r => r.exam_type) ∧
    (∀ g ∈ fetch_chart_data f recs,
      g.2.1 = (((recs.filter (rowMatches f)).filter
          (fun r => decide (r.exam_type = g.1))).map fun r => r.passed).sum ∧
      g.2.2 = (((recs.filter (rowMatches f)).filter
          (fun r => decide (r.exam_type = g.1))).map fun r => r.failed).sum) := by
  have hperm : List.Perm (fetch_chart_data f recs)
      ((recs.filter (rowMatches f)).foldl addToGroups []) :=
    List.perm_insertionSort _ _
  have hnd : ((((recs.filter (rowMatches f)).foldl addToGroups []).map
      fun g => g.1).Nodup) :=
    nodup_fst_foldl_addToGroups _ [] (by simp)
  refine ⟨List.sorted_insertionSort _ _, ?_, ?_, ?_⟩
  · exact ((hperm.map fun g => g.1).nodup_iff).mpr hnd
  · intro k
    rw [(hperm.map fun g => g.1).mem_iff]
    constructor
    · intro hk
      by_contra hnk
      have h1 : (((recs.filter (rowMatches f)).foldl addToGroups []).find?
          (fun g => decide (g.1 = k))) = none := by
        rw [find?_foldl_addToGroups]
        simp [hnk]
      exact (find?_fst_eq_none_iff _ k).mp h1 hk
    · intro hk
      have h1 : (((recs.filter (rowMatches f)).foldl addToGroups []).find?
          (fun g => decide (g.1 = k))) ≠ none := by
        rw [find?_foldl_addToGroups]
        simp [hk]
      cases hf : ((recs.filter (rowMatches f)).foldl addToGroups []).find?
          (fun g => decide (g.1 = k)) with
      | none => exact absurd hf h1
      | some g =>
        have hg := List.mem_of_find?_eq_some hf
        have hfst := List.find?_some hf
        simp only [decide_eq_true_eq] at hfst
        exact List.mem_map.mpr ⟨g, hg, hfst⟩
  · intro g hg
    have hg2 : g ∈ (recs.filter (rowMatches f)).foldl addToGroups [] :=
      hperm.mem_iff.mp hg
    have hfind := find?_mem_of_nodup _ hnd g hg2
    rw [find?_foldl_addToGroups] at hfind
    by_cases hmem : g.1 ∈ (recs.filter (rowMatches f)).map fun r => r.exam_type
    · rw [if_pos hmem] at hfind
      have := (Option.some.injEq _ _).mp hfind.symm
      constructor
      · rw [this]
      · rw [this]
    · rw [if_neg hmem] at hfind
      exact Option.noConfusion hfind

/-- Claim C8 witness: on the three-record store the "B" group row carries the
sums of its two records. -/
theorem fetch_chart_data_grouped_witness :
    ("B", (15 : Int), (5 : Int)) ∈
      fetch_chart_data fNone [recTypeB1, recTypeA, recTypeB2] ∧
    (15 : Int) = ((([recTypeB1, recTypeA, recTypeB2].filter
        (rowMatches fNone)).filter
        (fun r => decide (r.exam_type = "B"))).map fun r => r.passed).sum := by
  have hmem : ("B", (15 : Int), (5 : Int)) ∈
      fetch_chart_data fNone [recTypeB1, recTypeA, recTypeB2] := by
    have hperm : List.Perm (fetch_chart_data fNone [recTypeB1, recTypeA, recTypeB2])
        (([recTypeB1, recTypeA, recTypeB2].filter
          (rowMatches fNone)).foldl addToGroups []) :=
      List.perm_insertionSort _ _
    rw [hperm.mem_iff]
    have heq : (([recTypeB1, recTypeA, recTypeB2].filter
        (rowMatches fNone)).foldl addToGroups []) =
        [("B", (15 : Int), (5 : Int)), ("A", 1, 1)] := rfl
    rw [heq]
    simp
  exact ⟨hmem,
    ((fetch_chart_data_grouped fNone [recTypeB1, recTypeA, recTypeB2]).2.2.2
      _ hmem).1⟩

/-- Prefix test characterization. -/
theorem leadsWith_iff (needle : List Char) :
    ∀ hay : List Char, leadsWith needle hay = true ↔ ∃ t, hay = needle ++ t := by
  induction needle with
  | nil => intro hay; simp [leadsWith]
  | cons c cs ih =>
    intro hay
    cases hay with
    | nil =>
      simp only [leadsWith]
      constructor
      · intro h; exact absurd h (by simp)
      · rintro ⟨t, ht⟩; exact absurd ht (by simp)
    | cons d ds =>
      simp only [leadsWith, Bool.and_eq_true, decide_eq_true_eq, ih]
      constructor
      · rintro ⟨hcd, t, ht⟩
        exact ⟨t, by rw [hcd, ht]; rfl⟩
      · rintro ⟨t, ht⟩
        rw [List.cons_append] at ht
        injection ht with h1 h2
        exact ⟨h1.symm, t, h2⟩

/-- Substring containment characterization of Python's `in`. -/
theorem containsSub_iff (needle : List Char) :
    ∀ hay : List Char,
      containsSub hay needle = true ↔ ∃ p q, hay = p ++ needle ++ q := by
  intro hay
  induction hay with
  | nil =>
    simp only [containsSub, List.isEmpty_iff]
    constructor
    · intro h; exact ⟨[], [], by simp [h]⟩
    · rintro ⟨p, q, hpq⟩
      exact (List.append_eq_nil.mp (List.append_eq_nil.mp hpq.symm).1).2
  | cons c t ih =>
    simp only [containsSub, Bool.or_eq_true, leadsWith_iff, ih]
    constructor
    · rintro (⟨t2, ht⟩ | ⟨p, q, hpq⟩)
      · exact ⟨[], t2, by simp [ht]⟩
      · exact ⟨c :: p, q, by simp [hpq]⟩
    · rintro ⟨p, q, hpq⟩
      cases p with
      | nil => exact Or.inl ⟨q, by simpa using hpq⟩
      | cons x xs =>
        simp only [List.cons_append, List.cons.injEq] at hpq
        exact Or.inr ⟨xs, q, hpq.2⟩

/-- A wildcard-free LIKE pattern matches exactly the strings equal to it up to
ASCII case. -/
theorem likeMatch_exact (p : List Char) (hw : ∀ c ∈ p, c ≠ '%' ∧ c ≠ '_') :
    ∀ s : List Char, likeMatch p s = true ↔ lowerL s = lowerL p := by
  induction p with
  | nil =>
    intro s
    cases s <;> simp [likeMatch, lowerL]
  | cons c cp ih =>
    intro s
    have hc := hw c (List.mem_cons_self c cp)
    cases s with
    | nil =>
      simp only [likeMatch, if_neg hc.1, lowerL, List.map_nil, List.map_cons]
      constructor
      · intro h; exact absurd h (by simp)
      · intro h; exact absurd h (by simp)
    | cons d t =>
      have ihr := ih (fun x hx => hw x (List.mem_cons_of_mem c hx)) t
      simp only [likeMatch, if_neg hc.1, if_neg hc.2, Bool.and_eq_true,
        decide_eq_true_eq, ihr, lowerL, List.map_cons, List.cons.injEq]
      constructor
      · rintro ⟨h1, h2⟩; exact ⟨h1.symm, h2⟩
      · rintro ⟨h1, h2⟩; exact ⟨h1.symm, h2⟩

/-- A leading `%` matches any split of the string. -/
theorem likeMatch_percent_cons (p s : List Char) :
    likeMatch ('%' :: p) s = true ↔
      ∃ t q, s = t ++ q ∧ likeMatch p q = true := by
  have h : likeMatch ('%' :: p) s = s.tails.any fun t => likeMatch p t := by
    simp [likeMatch]
  rw [h, List.any_eq_true]
  constructor
  · rintro ⟨q, hq, hlq⟩
    obtain ⟨t, ht⟩ := (List.mem_tails q s).mp hq
    exact ⟨t, q, ht.symm, hlq⟩
  · rintro ⟨t, q, hs, hlq⟩
    exact ⟨q, (List.mem_tails q s).mpr ⟨t, hs.symm⟩, hlq⟩

/-- A wildcard-free pattern followed by `%` matches exactly the strings whose
prefix equals the pattern up to ASCII case. -/
theorem likeMatch_append_percent (p : List Char)
    (hw : ∀ c ∈ p, c ≠ '%' ∧ c ≠ '_') :
    ∀ s : List Char, likeMatch (p ++ ['%']) s = true ↔
      ∃ t q, s = t ++ q ∧ lowerL t = lowerL p := by
  induction p with
  | nil =>
    intro s
    rw [List.nil_append]
    have h : likeMatch ['%'] s = s.tails.any fun t => likeMatch [] t := by
      simp [likeMatch]
    rw [h, List.any_eq_true]
    constructor
    · intro _; exact ⟨[], s, rfl, rfl⟩
    · intro _
      exact ⟨[], (List.mem_tails [] s).mpr ⟨s, by simp⟩, rfl⟩
  | cons c cp ih =>
    intro s
    have hc := hw c (List.mem_cons_self c cp)
    have ihr := ih fun x hx => hw x (List.mem_cons_of_mem c hx)
    rw [List.cons_append]
    cases s with
    | nil =>
      simp only [likeMatch, if_neg hc.1]
      constructor
      · intro h; exact absurd h (by simp)
      · rintro ⟨t, q, hs, hl⟩
        rcases List.append_eq_nil.mp hs.symm with ⟨h1, _⟩
        rw [h1] at hl
        exact absurd hl (by simp [lowerL])
    | cons d t =>
      simp only [likeMatch, if_neg hc.1, if_neg hc.2, Bool.and_eq_true,
        decide_eq_true_eq, ihr t]
      constructor
      · rintro ⟨h1, t2, q2, ht, hl⟩
        refine ⟨d :: t2, q2, by rw [ht]; rfl, ?_⟩
        show lowerChar d :: lowerL t2 = lowerChar c :: lowerL cp
        rw [hl, h1]
      · rintro ⟨t2, q2, hs, hl⟩
        cases t2 with
        | nil => exact absurd hl (by simp [lowerL])
        | cons x xs =>
          simp only [List.cons_append, List.cons.injEq] at hs
          simp only [lowerL, List.map_cons, List.cons.injEq] at hl
          refine ⟨hl.1.symm.trans (by rw [hs.1]), xs, q2, hs.2, hl.2⟩

/-- The full `'%' ++ v ++ '%'` pattern built by `_build_filters` matches
exactly the strings containing a caseless copy of `v`, for wildcard-free
`v`. -/
theorem likeMatch_pattern_iff (v : List Char)
    (hw : ∀ c ∈ v, c ≠ '%' ∧ c ≠ '_') (s : List Char) :
    likeMatch ('%' :: (v ++ ['%'])) s = true ↔
      ∃ s₁ t s₂, s = s₁ ++ t ++ s₂ ∧ lowerL t = lowerL v := by
  rw [likeMatch_percent_cons]
  constructor
  · rintro ⟨t, q, hs, hq⟩
    obtain ⟨t2, q2, hq2, hl⟩ := (likeMatch_append_percent v hw q).mp hq
    refine ⟨t, t2, q2, ?_, hl⟩
    rw [hs, hq2, List.append_assoc]
  · rintro ⟨s₁, t, s₂, hs, hl⟩
    refine ⟨s₁, t ++ s₂, ?_, (likeMatch_append_percent v hw _).mpr ⟨t, s₂, rfl, hl⟩⟩
    rw [hs, List.append_assoc]

/-- Containment of the lowered needle in the lowered haystack is the same
caseless-copy condition. -/
theorem containsSub_lower_iff (s v : List Char) :
    containsSub (lowerL s) (lowerL v) = true ↔
      ∃ s₁ t s₂, s = s₁ ++ t ++ s₂ ∧ lowerL t = lowerL v := by
  rw [containsSub_iff]
  constructor
  · rintro ⟨p, q, hpq⟩
    rw [lowerL, List.append_assoc, List.map_eq_append_iff] at hpq
    obtain ⟨s₁, s0, hs, hp1, hrest⟩ := hpq
    rw [List.map_eq_append_iff] at hrest
    obtain ⟨t, s₂, hs0, ht, _⟩ := hrest
    exact ⟨s₁, t, s₂, by rw [hs, hs0, List.append_assoc], ht⟩
  · rintro ⟨s₁, t, s₂, hs, hl⟩
    refine ⟨lowerL s₁, lowerL s₂, ?_⟩
    rw [hs]
    have hl2 : List.map lowerChar t = List.map lowerChar v := hl
    show List.map lowerChar (s₁ ++ t ++ s₂) =
      List.map lowerChar s₁ ++ List.map lowerChar v ++ List.map lowerChar s₂
    rw [List.map_append, List.map_append, hl2]

/-- On wildcard-free filter values the `LIKE '%v%'` test of the code agrees
with the spec's case-insensitive containment. -/
theorem likeMatch_eq_containsSub (v s : String) (hw : wildcardFree v) :
    likeMatch (likePat v) s.data = containsSub (lowerL s.data) (lowerL v.data) := by
  rw [Bool.eq_iff_iff]
  exact (likeMatch_pattern_iff v.data hw s.data).trans
    (containsSub_lower_iff s.data v.data).symm

/-- On wildcard-free values the optional text condition of `_build_filters`
equals the spec-side condition. -/
theorem textCond_eq_specTextOk (v : Option String) (field : String)
    (hw : optWildcardFree v) : textCond v field = specTextOk v field := by
  cases v with
  | none => rfl
  | some s =>
    by_cases hs : s = ""
    · simp [textCond, specTextOk, hs]
    · simp only [textCond, specTextOk, if_neg hs]
      rw [likeMatch_eq_containsSub s field (hw s rfl)]
      simp [hs]

/-- On wildcard-free filters the row predicate of the code equals the
spec-side predicate. -/
theorem rowMatches_eq_specRowOk (f : Filters) (hw : filtersWildcardFree f)
    (r : ExamRow) : rowMatches f r = specRowOk f r := by
  obtain ⟨h1, h2, h3, h4, h5⟩ := hw
  unfold rowMatches specRowOk
  rw [textCond_eq_specTextOk _ _ h1, textCond_eq_specTextOk _ _ h2,
    textCond_eq_specTextOk _ _ h3, textCond_eq_specTextOk _ _ h4,
    textCond_eq_specTextOk _ _ h5]

/-- Claim C6 (amended): for filter values free of the LIKE wildcards `%` and
`_`, `fetch_table` returns exactly the stored records satisfying the
conjunction of the active conditions — each text condition a case-insensitive
substring match applied only when its value is present and non-empty (the
literal value "All" is not special-cased here: the UI maps "All" to an absent
value before calling), and the period condition the inclusive bound
`fromPeriod ≤ year*100+month ≤ toPeriod` applied only when both bounds are
present — each row augmented with a derived `presented = passed + failed`
column, ordered by (year, month, province). -/
theorem fetch_table_filters_and_orders (f : Filters) (recs : List ExamRow)
    (hw : filtersWildcardFree f) :
    (fetch_table f recs).1 = tableHeaders ∧
    List.Sorted tableLE (fetch_table f recs).2 ∧
    List.Perm (fetch_table f recs).2 ((recs.filter (specRowOk f)).map projectRow) ∧
    (∀ row ∈ (fetch_table f recs).2, row.presented = row.passed + row.failed) := by
  have hfeq : recs.filter (rowMatches f) = recs.filter (specRowOk f) :=
    List.filter_congr fun r _ => rowMatches_eq_specRowOk f hw r
  refine ⟨rfl, List.sorted_insertionSort _ _, ?_, ?_⟩
  · show List.Perm (List.insertionSort tableLE
      ((recs.filter (rowMatches f)).map projectRow)) _
    rw [hfeq]
    exact List.perm_insertionSort _ _
  · intro row hrow
    have h2 : row ∈ (recs.filter (rowMatches f)).map projectRow :=
      (List.perm_insertionSort tableLE _).mem_iff.mp hrow
    obtain ⟨r, _, hproj⟩ := List.mem_map.mp h2
    rw [← hproj]
    rfl

/-- Claim C6 witness: with province value "adri" and period range
[202301, 202312] the single stored "Madrid" (2023, 5) row is returned. -/
theorem fetch_table_filters_witness :
    List.Perm (fetch_table fMadridRange [recMadrid]).2 [projectRow recMadrid] := by
  have hnone : ∀ v : Option String, v = none → optWildcardFree v := by
    intro v hv s hs
    rw [hv] at hs
    exact Option.noConfusion hs
  have hadri : optWildcardFree fMadridRange.province := by
    intro s hs
    have h : ("adri" : String) = s := by
      have h0 : fMadridRange.province = some "adri" := rfl
      rw [h0] at hs
      injection hs
    rw [← h]
    show ∀ c ∈ ("adri" : String).data, c ≠ '%' ∧ c ≠ '_'
    decide
  have hw : filtersWildcardFree fMadridRange :=
    ⟨hadri, hnone _ rfl, hnone _ rfl, hnone _ rfl, hnone _ rfl⟩
  have h := (fetch_table_filters_and_orders fMadridRange [recMadrid] hw).2.2.1
  have hval : ([recMadrid].filter (specRowOk fMadridRange)).map projectRow =
      [projectRow recMadrid] := rfl
  rw [hval] at h
  exact h

end DrivingExams
